import Mathlib

/-!
Verification of `.myob/scripts/download_resources.py`.

Python strings are modelled as `List Char`; `os.path.join` results are modelled
as the list of joined components (`List (List Char)`); the HTTP layer is
modelled by an oracle giving the outcome of each attempt; `random.uniform(1,2)`
is modelled by an arbitrary jitter function `Nat → ℚ` constrained to `[1,2)`.
Character case conversion (`str.upper` / `str.lower`) is modelled with
`Char.toUpper` / `Char.toLower`, which agrees with Python on ASCII input.
-/

/-- Python whitespace characters, as matched by `str.strip()` and the regex
class `\s` (the ASCII ones plus the common Unicode whitespace code points). -/
def isPySpace (c : Char) : Bool :=
  c = ' ' || c = '\t' || c = '\n' || c = '\x0d' || c = '\x0b' || c = '\x0c' ||
  c = '\x1c' || c = '\x1d' || c = '\x1e' || c = '\x1f' || c = '\x85' || c = '\xa0' ||
  c = ' ' || c = ' ' || c = ' ' || c = ' ' || c = ' ' ||
  c = ' ' || c = ' ' || c = ' ' || c = ' ' || c = ' ' ||
  c = ' ' || c = ' ' || c = ' ' || c = ' ' || c = ' ' ||
  c = ' ' || c = '　'

/-- The characters removed by `re.sub(r'[<>:"/\\|?*]', "", name)`. -/
def badFsChar (c : Char) : Bool :=
  c = '<' || c = '>' || c = ':' || c = '"' || c = '/' || c = '\\' ||
  c = '|' || c = '?' || c = '*'

/-- The characters stripped from both ends by `name.strip("-.")`. -/
def isStripChar (c : Char) : Bool :=
  c = '-' || c = '.'

/-- Model of Python `str.strip()` (no argument: strips whitespace). -/
def pyStrip (l : List Char) : List Char :=
  ((l.dropWhile isPySpace).reverse.dropWhile isPySpace).reverse

/-- Model of Python `str.strip("-.")`. -/
def stripDashDot (l : List Char) : List Char :=
  ((l.dropWhile isStripChar).reverse.dropWhile isStripChar).reverse

/-- Model of Python `str.upper()` (exact on the ASCII strings this tool sees). -/
def pyUpper (l : List Char) : List Char := l.map Char.toUpper

/-- Model of Python `str.lower()` (exact on the ASCII strings this tool sees). -/
def pyLower (l : List Char) : List Char := l.map Char.toLower

/-- Model of `re.sub(r"\s+", "-", name)`: each maximal nonempty run of
whitespace becomes a single hyphen.  The boolean records whether the previous
character was part of a whitespace run. -/
def collapseWsAux : Bool → List Char → List Char
  | _, [] => []
  | prev, c :: cs =>
    if isPySpace c then
      if prev then collapseWsAux true cs else '-' :: collapseWsAux true cs
    else c :: collapseWsAux false cs

/-- Model of `sanitize_filename` (download_resources.py lines 87-93):
remove the problematic filesystem characters, collapse whitespace runs to a
hyphen, strip leading/trailing `-` and `.`, then truncate to 255 characters. -/
def sanitize_filename (name : List Char) : List Char :=
  let n1 := name.filter (fun c => !badFsChar c)
  let n2 := collapseWsAux false n1
  let n3 := stripDashDot n2
  n3.take 255

/-- Model of `str.replace(" & ", "-")` as used on category names:
replace every occurrence of `" & "` (left to right, non-overlapping). -/
def replace_amp : List Char → List Char
  | ' ' :: '&' :: ' ' :: rest => '-' :: replace_amp rest
  | c :: rest => c :: replace_amp rest
  | [] => []

/-- Model of `os.path.basename` on the slash-separated paths appearing in
GitHub URLs: the part after the last `/`. -/
def basename (l : List Char) : List Char :=
  (l.reverse.takeWhile (fun c => !(c = '/'))).reverse

/-- The result of `parse_github_url`: one of the four recognised URL shapes,
with the fields captured by the regular expressions. -/
inductive UrlInfo where
  | file (owner repo branch path : List Char)
  | dir (owner repo branch path : List Char)
  | repo (owner repo : List Char)
  | gist (owner gist_id : List Char)
  deriving DecidableEq

/-- Drop `pre` from the front of `l`, if `l` starts with `pre`. -/
def dropPre : List Char → List Char → Option (List Char)
  | [], l => some l
  | _, [] => none
  | p :: ps, c :: cs => if p = c then dropPre ps cs else none

/-- Match one `[^/]+/` group: the (greedy, hence maximal) nonempty run of
non-slash characters followed by a literal slash; returns the run and what
follows the slash. -/
def segSlash (l : List Char) : Option (List Char × List Char) :=
  match l.dropWhile (fun c => !(c = '/')) with
  | '/' :: r =>
    match l.takeWhile (fun c => !(c = '/')) with
    | [] => none
    | run => some (run, r)
  | _ => none

/-- Match the pattern `https://github\.com/([^/]+)/([^/]+)/(?:blob|raw)/([^/]+)/(.+)`
anchored at the start (Python `re.match`): the final `(.+)` greedily captures
everything up to a newline or the end, and trailing input is allowed. -/
def matchFile (l : List Char) : Option UrlInfo :=
  match dropPre "https://github.com/".data l with
  | none => none
  | some r0 =>
    match segSlash r0 with
    | none => none
    | some (owner, r1) =>
      match segSlash r1 with
      | none => none
      | some (repo, r2) =>
        match (dropPre "blob/".data r2).orElse (fun _ => dropPre "raw/".data r2) with
        | none => none
        | some r3 =>
          match segSlash r3 with
          | none => none
          | some (branch, r4) =>
            match r4.takeWhile (fun c => !(c = '\n')) with
            | [] => none
            | path => some (.file owner repo branch path)

/-- Match `https://github\.com/([^/]+)/([^/]+)/tree/([^/]+)/(.+)` anchored at
the start, trailing input allowed. -/
def matchDir (l : List Char) : Option UrlInfo :=
  match dropPre "https://github.com/".data l with
  | none => none
  | some r0 =>
    match segSlash r0 with
    | none => none
    | some (owner, r1) =>
      match segSlash r1 with
      | none => none
      | some (repo, r2) =>
        match dropPre "tree/".data r2 with
        | none => none
        | some r3 =>
          match segSlash r3 with
          | none => none
          | some (branch, r4) =>
            match r4.takeWhile (fun c => !(c = '\n')) with
            | [] => none
            | path => some (.dir owner repo branch path)

/-- Match `https://github\.com/([^/]+)/([^/]+)/?$`.  The second `[^/]+` is
greedy, so it absorbs everything up to the next `/` (or the end); what remains
must be accepted by `/?$`, where Python's `$` matches at the end of the string
or just before a final newline.  Since the greedy run only stops at a slash,
the remainder is empty, `"/"`, or `"/\n"`. -/
def matchRepo (l : List Char) : Option UrlInfo :=
  match dropPre "https://github.com/".data l with
  | none => none
  | some r0 =>
    match segSlash r0 with
    | none => none
    | some (owner, r1) =>
      match r1.takeWhile (fun c => !(c = '/')) with
      | [] => none
      | repo =>
        if r1.dropWhile (fun c => !(c = '/')) = []
            ∨ r1.dropWhile (fun c => !(c = '/')) = ['/']
            ∨ r1.dropWhile (fun c => !(c = '/')) = ['/', '\n'] then
          some (.repo owner repo)
        else none

/-- Match `https://gist\.github\.com/([^/]+)/([^/#]+)` anchored at the start,
trailing input allowed. -/
def matchGist (l : List Char) : Option UrlInfo :=
  match dropPre "https://gist.github.com/".data l with
  | none => none
  | some r0 =>
    match segSlash r0 with
    | none => none
    | some (owner, r1) =>
      match r1.takeWhile (fun c => !(c = '/' || c = '#')) with
      | [] => none
      | gid => some (.gist owner gid)

/-- Model of `parse_github_url` (lines 96-136): try the four patterns in the
insertion order of the `patterns` dict — file, dir, repo, gist — and return
the first match, or `none`. -/
def parse_github_url (l : List Char) : Option UrlInfo :=
  match matchFile l with
  | some i => some i
  | none =>
    match matchDir l with
    | some i => some i
    | none =>
      match matchRepo l with
      | some i => some i
      | none => matchGist l

/-- The variant tag of a classified reference (`url_info["type"]`). -/
inductive UType where
  | file | dir | repo | gist
  deriving DecidableEq

/-- The tag of a `UrlInfo`. -/
def UrlInfo.utype : UrlInfo → UType
  | .file _ _ _ _ => .file
  | .dir _ _ _ _ => .dir
  | .repo _ _ => .repo
  | .gist _ _ => .gist

/-- Outcome of one execution of the body of the `try` block in
`download_github_file`, as seen from the retry logic: `ok` means the body
returned `True` (primary call answered 200 and the writes succeeded);
`badStatus n` means the primary call answered with status `n ≠ 200` and
nothing was raised yet; `raise` means some exception escaped the body
(network failure, timeout, filesystem error, ...). -/
inductive Outcome where
  | ok
  | badStatus (code : Nat)
  | raise
  deriving DecidableEq

/-- One run of `download_github_file`: the returned boolean, the list of
backoff waits slept before each retry (in seconds, in order), and the number
of primary HTTP requests issued. -/
structure FetchRun where
  result : Bool
  waits : List ℚ
  requests : Nat
  deriving DecidableEq

/-- The outcome of the attempt with retry counter `k` for a reference of type
`ty`: for a `repo` reference none of the `if/elif` branches runs, so the
later `response.status_code` read raises `NameError` (`response` is unbound)
— without any HTTP request having been made.  For the other types the body
issues its primary request and behaves as the oracle `net` says. -/
def attemptOutcome (ty : UType) (net : Nat → Outcome) (k : Nat) : Outcome :=
  match ty with
  | .repo => .raise
  | _ => net k

/-- Number of primary HTTP requests issued by the attempt: none for a `repo`
reference, one otherwise. -/
def attemptRequests (ty : UType) : Nat :=
  match ty with
  | .repo => 0
  | _ => 1

/-- The retry recursion of `download_github_file`, with the remaining retry
budget `fuel = max_retries - retry_count` made explicit.  An `ok` body returns
`True`; a non-429 bad status falls through to `return False` (no retry!); a
429 status raises `HTTPError`, and any raised exception retries after waiting
`2 ** retry_count + random.uniform(1, 2)` seconds while `retry_count <
max_retries`, i.e. while the budget is positive. -/
def downFuel (net : Nat → Outcome) (jitter : Nat → ℚ) (ty : UType) :
    Nat → Nat → FetchRun
  | rc, 0 =>
    match attemptOutcome ty net rc with
    | .ok => ⟨true, [], attemptRequests ty⟩
    | .badStatus _ => ⟨false, [], attemptRequests ty⟩
    | .raise => ⟨false, [], attemptRequests ty⟩
  | rc, fuel + 1 =>
    match attemptOutcome ty net rc with
    | .ok => ⟨true, [], attemptRequests ty⟩
    | .badStatus n =>
      if n = 429 then
        let rest := downFuel net jitter ty (rc + 1) fuel
        ⟨rest.result, (2 ^ rc + jitter rc) :: rest.waits,
         attemptRequests ty + rest.requests⟩
      else ⟨false, [], attemptRequests ty⟩
    | .raise =>
      let rest := downFuel net jitter ty (rc + 1) fuel
      ⟨rest.result, (2 ^ rc + jitter rc) :: rest.waits,
       attemptRequests ty + rest.requests⟩

/-- Model of `download_github_file` (lines 139-211).  `net k` is the outcome
of the body of the `try` block on the attempt with retry counter `k`;
`jitter k` is the value drawn by `random.uniform(1, 2)` before the retry that
raises the counter to `k + 1`.  Since a retry happens exactly while
`retry_count < max_retries`, the recursion depth is `max_retries -
retry_count`, which is passed explicitly as fuel. -/
def download_github_file (net : Nat → Outcome) (jitter : Nat → ℚ) (ty : UType)
    (retry_count max_retries : Nat) : FetchRun :=
  downFuel net jitter ty retry_count (max_retries - retry_count)

/-- The `OPEN_SOURCE_LICENSES` set (lines 55-74); membership in the script is
exact, case-sensitive string equality. -/
def OPEN_SOURCE_LICENSES : List (List Char) :=
  ["MIT".data, "Apache-2.0".data, "BSD-2-Clause".data, "BSD-3-Clause".data,
   "GPL-2.0".data, "GPL-3.0".data, "LGPL-2.1".data, "LGPL-3.0".data,
   "MPL-2.0".data, "ISC".data, "0BSD".data, "Unlicense".data, "CC0-1.0".data,
   "CC-BY-4.0".data, "CC-BY-SA-4.0".data, "AGPL-3.0".data, "EPL-2.0".data,
   "BSL-1.0".data]

/-- Model of `CATEGORY_MAPPING.get(original_category, "other")` (lines
77-84): the fixed dictionary lookup with default `"other"`. -/
def category_mapping_get (c : List Char) : List Char :=
  if c = "Slash-Commands".data then "slash_command".data
  else if c = "CLAUDE.md Files".data then "claude_md".data
  else if c = "Workflows & Knowledge Guides".data then "workflow".data
  else if c = "Tooling".data then "tooling".data
  else if c = "Official Documentation".data then "blog".data
  else if c = " Implementation".data then "implementation".data
  else "other".data

/-- One CSV manifest row; `license` is `none` when the `License` column is
absent (`row.get("License", ...)`). -/
structure Row where
  displayName : List Char
  category : List Char
  active : List Char
  primaryLink : List Char
  secondaryLink : List Char
  license : Option (List Char)
  deriving DecidableEq

/-- The options of `process_resources`. `max_downloads = some 0` models the
CLI value `0`, which is falsy in Python and therefore disables the cap, just
like `none` (the `None` default). -/
structure Opts where
  category_filter : Option (List Char)
  license_filter : Option (List Char)
  max_downloads : Option Nat
  output_dir : List Char
  hosted_dir : List Char
  deriving DecidableEq

/-- Observable side effects of the processor: a fetch attempt against an
archive path (recording the row index, the value of `downloaded` when the
attempt starts, and the reference type), and an attempted copy into the
hosted tree.  Paths are recorded as their `os.path.join` components. -/
inductive Event where
  | fetch (rowIdx downloadedAtStart : Nat) (ty : UType) (path : List (List Char))
  | hostedWrite (rowIdx : Nat) (path : List (List Char))
  deriving DecidableEq

/-- The run statistics plus the fetch-attempt counter used to consult the
network oracle, and the accumulated event trace. -/
structure PState where
  total : Nat
  downloaded : Nat
  skipped : Nat
  failed : Nat
  attempts : Nat
  events : List Event
  deriving DecidableEq

/-- The initial statistics (lines 230-233). -/
def initState : PState := ⟨0, 0, 0, 0, 0, []⟩

/-- Truthiness-aware category filter check (line 252):
`if category_filter and row["Category"] != category_filter: continue`. -/
def catFilterBlocks (f : Option (List Char)) (cat : List Char) : Bool :=
  match f with
  | none => false
  | some f => !(f = []) && !(cat = f)

/-- Truthiness-aware license filter check (line 255):
`if license_filter and row.get("License", "") != license_filter: continue`. -/
def licFilterBlocks (f : Option (List Char)) (lic : Option (List Char)) : Bool :=
  match f with
  | none => false
  | some f => !(f = []) && !(lic.getD [] = f)

/-- Line 259: `url = row["Primary Link"].strip() or row["Secondary Link"].strip()`. -/
def resolvedUrl (row : Row) : List Char :=
  let p := pyStrip row.primaryLink
  if p = [] then pyStrip row.secondaryLink else p

/-- Line 265: the archive category directory,
`sanitize_filename(original_category.lower().replace(" & ", "-"))`. -/
def archiveCategory (row : Row) : List Char :=
  sanitize_filename (replace_amp (pyLower row.category))

/-- Line 282: `safe_name = sanitize_filename(display_name)`. -/
def safeName (row : Row) : List Char :=
  sanitize_filename row.displayName

/-- Line 269: `resource_license = row.get("License", "NOT_FOUND").strip()`. -/
def resourceLicense (row : Row) : List Char :=
  pyStrip (row.license.getD "NOT_FOUND".data)

/-- The archive destination path computed for a classified reference (lines
285-312).  For a `repo` reference the script assigns
`os.path.join(output_dir, category, safe_name)` and then skips the row. -/
def resource_path_for (output_dir category safe : List Char) :
    UrlInfo → List (List Char)
  | .gist _ _ => [output_dir, category, safe ++ "-gist".data]
  | .repo _ _ => [output_dir, category, safe]
  | .dir _ _ _ _ => [output_dir, category, safe]
  | .file _ _ _ p => [output_dir, category, safe, basename p]

/-- The hosted destination path (lines 285-312): computed only when
`resource_license in OPEN_SOURCE_LICENSES`, else `None`; never computed for a
`repo` reference (the row is skipped before any hosted path is assigned).
Note the gist case: the hosted component is `safe_name`, without the
`-gist` suffix that the archive path carries. -/
def hosted_path_for (hosted_dir mapped safe lic : List Char) :
    UrlInfo → Option (List (List Char))
  | .gist _ _ =>
    if lic ∈ OPEN_SOURCE_LICENSES then some [hosted_dir, mapped, safe] else none
  | .repo _ _ => none
  | .dir _ _ _ _ =>
    if lic ∈ OPEN_SOURCE_LICENSES then some [hosted_dir, mapped, safe] else none
  | .file _ _ _ p =>
    if lic ∈ OPEN_SOURCE_LICENSES then some [hosted_dir, mapped, safe, basename p]
    else none

/-- Processing of one manifest row (the loop body, lines 245-344), given the
state at the top of the iteration; `net k` is the result of the `k`-th fetch
attempt of the whole run (`True` = success).  The caller has already checked
the download cap.  Inactive rows, filtered rows, rows without a URL, rows
whose URL fails to classify and `repo` rows leave the trace unchanged except
for the counters shown. -/
def processRow (opts : Opts) (net : Nat → Bool) (st : PState) (idx : Nat)
    (row : Row) : PState :=
  if !(pyUpper row.active = "TRUE".data) then st
  else
    let st1 := { st with total := st.total + 1 }
    if catFilterBlocks opts.category_filter row.category then st1
    else if licFilterBlocks opts.license_filter row.license then st1
    else
      let url := resolvedUrl row
      if url = [] then st1
      else
        match parse_github_url url with
        | none => { st1 with skipped := st1.skipped + 1 }
        | some info =>
          match info with
          | .repo _ _ => { st1 with skipped := st1.skipped + 1 }
          | info =>
            let category := archiveCategory row
            let safe := safeName row
            let mapped := category_mapping_get row.category
            let lic := resourceLicense row
            let rp := resource_path_for opts.output_dir category safe info
            let hp := hosted_path_for opts.hosted_dir mapped safe lic info
            let ok := net st1.attempts
            let st2 := { st1 with
              attempts := st1.attempts + 1,
              events := st1.events ++ [Event.fetch idx st1.downloaded info.utype rp] }
            if ok then
              let st3 := { st2 with downloaded := st2.downloaded + 1 }
              match hp with
              | some hpath =>
                if lic ∈ OPEN_SOURCE_LICENSES then
                  { st3 with events := st3.events ++ [Event.hostedWrite idx hpath] }
                else st3
              | none => st3
            else { st2 with failed := st2.failed + 1 }

/-- Line 241: `if max_downloads and downloaded >= max_downloads: break` —
`max_downloads` equal to `None` or `0` is falsy, so the cap is ignored. -/
def stopNow (maxDl : Option Nat) (downloaded : Nat) : Bool :=
  match maxDl with
  | none => false
  | some n => !(n = 0) && decide (n ≤ downloaded)

/-- The row loop of `process_resources` (lines 239-344): before each row the
download cap is checked and the scan breaks once it is reached. -/
def processRows (opts : Opts) (net : Nat → Bool) :
    Nat → List Row → PState → PState
  | _, [], st => st
  | i, r :: rs, st =>
    if stopNow opts.max_downloads st.downloaded then st
    else processRows opts net (i + 1) rs (processRow opts net st i r)

/-- Model of `process_resources` (lines 214-358): scan the manifest rows in
order starting from the initial statistics. -/
def process_resources (opts : Opts) (net : Nat → Bool) (rows : List Row) :
    PState :=
  processRows opts net 0 rows initState

/-- A concrete single-file manifest row used by witnesses and counterexamples. -/
def fileRowA : Row :=
  ⟨"Tool A".data, "Tooling".data, "TRUE".data,
   "https://github.com/acme/repo/blob/main/cmd/tool.py".data, [], some "MIT".data⟩

/-- A concrete gist manifest row. -/
def gistRowC : Row :=
  ⟨"My Gist".data, "Tooling".data, "TRUE".data,
   "https://gist.github.com/alice/abc123".data, [], some "MIT".data⟩

/-- A concrete row whose two link columns hold only whitespace / nothing. -/
def emptyLinksRow : Row :=
  ⟨"E".data, "Tooling".data, "TRUE".data, "  ".data, [], none⟩

/-- A concrete row whose `Active` column is the lowercase string `"true"`. -/
def lowActiveRow : Row :=
  ⟨"T".data, "Tooling".data, "true".data,
   "https://github.com/acme/repo/blob/main/f.md".data, [], none⟩

/-- A concrete inactive row. -/
def falseActiveRow : Row :=
  ⟨"F".data, "Tooling".data, "FALSE".data,
   "https://github.com/acme/repo/blob/main/f.md".data, [], none⟩

/-- A concrete bare-repository row. -/
def repoRowC : Row :=
  ⟨"Repo R".data, "Tooling".data, "TRUE".data,
   "https://github.com/acme/repo".data, [], some "MIT".data⟩

/-- A concrete row whose URL is not a GitHub URL. -/
def badUrlRow : Row :=
  ⟨"B".data, "Tooling".data, "TRUE".data,
   "https://example.com/x".data, [], none⟩

/-- A concrete row with a non-open-source license. -/
def propRow : Row :=
  ⟨"P".data, "Tooling".data, "TRUE".data,
   "https://gist.github.com/alice/abc123".data, [], some "Proprietary".data⟩

/-- Options with no filters and no cap. -/
def opts0 : Opts := ⟨none, none, none, "arch".data, "host".data⟩

/-- Options with the download cap set to the (falsy) value 0. -/
def optsCap0 : Opts := ⟨none, none, some 0, "arch".data, "host".data⟩

/-- Options with the download cap set to 1. -/
def optsCap1 : Opts := ⟨none, none, some 1, "arch".data, "host".data⟩

/-- A 256-character name whose 255th character is a dot. -/
def longDotName : List Char := List.replicate 254 'a' ++ '.' :: ['a']

/-- Declarative reading of the file regex
`https://github\.com/([^/]+)/([^/]+)/(?:blob|raw)/([^/]+)/(.+)` under Python
`re.match` semantics: anchored at the start, trailing input allowed after the
greedy `(.+)`, whose capture is nonempty and stops at a newline. -/
def MatchesFilePat (l : List Char) : Prop :=
  ∃ o r sep b p rest,
    (sep = "blob".data ∨ sep = "raw".data) ∧
    o ≠ [] ∧ '/' ∉ o ∧ r ≠ [] ∧ '/' ∉ r ∧ b ≠ [] ∧ '/' ∉ b ∧
    p ≠ [] ∧ '\n' ∉ p ∧
    l = "https://github.com/".data
      ++ (o ++ '/' :: (r ++ '/' :: (sep ++ '/' :: (b ++ '/' :: (p ++ rest)))))

/-- Declarative reading of the directory regex
`https://github\.com/([^/]+)/([^/]+)/tree/([^/]+)/(.+)`. -/
def MatchesDirPat (l : List Char) : Prop :=
  ∃ o r b p rest,
    o ≠ [] ∧ '/' ∉ o ∧ r ≠ [] ∧ '/' ∉ r ∧ b ≠ [] ∧ '/' ∉ b ∧
    p ≠ [] ∧ '\n' ∉ p ∧
    l = "https://github.com/".data
      ++ (o ++ '/' :: (r ++ '/' :: ("tree".data ++ '/' :: (b ++ '/' :: (p ++ rest)))))

/-- Declarative reading of the bare-repository regex
`https://github\.com/([^/]+)/([^/]+)/?$`: after the greedy second capture only
`/?` followed by the end of the string — or, per Python `$`, the end preceded
by one final newline — may remain. -/
def MatchesRepoPat (l : List Char) : Prop :=
  ∃ o r tail,
    o ≠ [] ∧ '/' ∉ o ∧ r ≠ [] ∧ '/' ∉ r ∧
    (tail = [] ∨ tail = ['/'] ∨ tail = ['/', '\n']) ∧
    l = "https://github.com/".data ++ (o ++ '/' :: (r ++ tail))

/-- Declarative reading of the gist regex
`https://gist\.github\.com/([^/]+)/([^/#]+)`: anchored at the start, trailing
input allowed. -/
def MatchesGistPat (l : List Char) : Prop :=
  ∃ o g rest,
    o ≠ [] ∧ '/' ∉ o ∧ g ≠ [] ∧ '/' ∉ g ∧ '#' ∉ g ∧
    l = "https://gist.github.com/".data ++ (o ++ '/' :: (g ++ rest))









/-- Helper: the waits of a `downFuel` run starting at retry counter `rc` are
the backoff schedule at consecutive counters `rc, rc + 1, ...`, for some
number `m ≤ fuel` of retries. -/
theorem downFuel_waits_spec (net : Nat → Outcome) (jitter : Nat → ℚ) (ty : UType) :
    ∀ fuel rc, ∃ m, m ≤ fuel ∧
      (downFuel net jitter ty rc fuel).waits
        = (List.range m).map (fun k => 2 ^ (rc + k) + jitter (rc + k)) := by
  intro fuel
  induction fuel with
  | zero =>
    intro rc
    refine ⟨0, le_refl 0, ?_⟩
    simp only [downFuel]
    cases attemptOutcome ty net rc <;> simp
  | succ f ih =>
    intro rc
    obtain ⟨m, hm, heq⟩ := ih (rc + 1)
    have hcons :
        (2 ^ rc + jitter rc) :: (downFuel net jitter ty (rc + 1) f).waits
          = (List.range (m + 1)).map (fun k => 2 ^ (rc + k) + jitter (rc + k)) := by
      rw [heq, List.range_succ_eq_map, List.map_cons, List.map_map]
      refine congrArg₂ _ (by simp) ?_
      refine List.map_congr_left ?_
      intro k _
      simp [Function.comp, Nat.add_comm, Nat.add_assoc, Nat.add_left_comm]
    simp only [downFuel]
    cases attemptOutcome ty net rc with
    | ok => exact ⟨0, Nat.zero_le _, by simp⟩
    | raise => exact ⟨m + 1, Nat.succ_le_succ hm, hcons⟩
    | badStatus n =>
      by_cases hn : n = 429
      · subst hn
        exact ⟨m + 1, Nat.succ_le_succ hm, by simpa using hcons⟩
      · exact ⟨0, Nat.zero_le _, by simp [hn]⟩

/-- C3: for every fetch invocation run with retry counter 0 and a given
`max_retries`, at most `max_retries` retries are performed, and the wait
before the `(i+1)`-st retry is exactly `2 ^ i` plus the drawn jitter, hence
lies in `[2 ^ i + 1, 2 ^ i + 2)` when the jitter is drawn from `[1, 2)`. -/
theorem download_retry_bounds (net : Nat → Outcome) (jitter : Nat → ℚ)
    (ty : UType) (max_retries : Nat)
    (hj : ∀ k, 1 ≤ jitter k ∧ jitter k < 2) :
    (download_github_file net jitter ty 0 max_retries).waits.length ≤ max_retries ∧
    ∀ i w, (download_github_file net jitter ty 0 max_retries).waits[i]? = some w →
      w = 2 ^ i + jitter i ∧ 2 ^ i + 1 ≤ w ∧ w < 2 ^ i + 2 := by
  obtain ⟨m, hm, heq⟩ := downFuel_waits_spec net jitter ty max_retries 0
  constructor
  · rw [download_github_file, Nat.sub_zero, heq]
    simpa using hm
  · intro i w hw
    rw [download_github_file, Nat.sub_zero, heq, List.getElem?_map] at hw
    by_cases him : i < m
    · rw [List.getElem?_eq_getElem (by simpa using him)] at hw
      simp only [List.getElem_range, Option.map_some', Option.some.injEq,
        Nat.zero_add] at hw
      obtain ⟨h1, h2⟩ := hj i
      subst hw
      exact ⟨rfl, add_le_add_left h1 _, add_lt_add_left h2 _⟩
    · rw [List.getElem?_eq_none (by simpa using him)] at hw
      simp at hw

/-- Witness for `download_retry_bounds` at a concrete always-failing network
and jitter 3/2. -/
theorem download_retry_bounds_witness :
    (download_github_file (fun _ => Outcome.raise) (fun _ => (3 : ℚ)/2)
      UType.file 0 2).waits.length ≤ 2 :=
  (download_retry_bounds (fun _ => Outcome.raise) (fun _ => (3 : ℚ)/2)
    UType.file 2 (fun _ => by norm_num)).1

/-- Helper: if every attempt raises or answers 429, the run fails after
exactly `fuel` retries. -/
theorem downFuel_errorish (net : Nat → Outcome) (jitter : Nat → ℚ) (ty : UType)
    (h : ∀ k, net k = Outcome.raise ∨ net k = Outcome.badStatus 429) :
    ∀ fuel rc, (downFuel net jitter ty rc fuel).result = false ∧
      (downFuel net jitter ty rc fuel).waits.length = fuel := by
  have hout : ∀ rc, attemptOutcome ty net rc = Outcome.raise ∨
      attemptOutcome ty net rc = Outcome.badStatus 429 := by
    intro rc
    cases ty with
    | repo => simp [attemptOutcome]
    | file => exact h rc
    | dir => exact h rc
    | gist => exact h rc
  intro fuel
  induction fuel with
  | zero =>
    intro rc
    simp only [downFuel]
    rcases hout rc with h1 | h1 <;> rw [h1] <;> simp
  | succ f ih =>
    intro rc
    simp only [downFuel]
    rcases hout rc with h1 | h1 <;> rw [h1]
    · exact ⟨(ih (rc + 1)).1, by simp [(ih (rc + 1)).2]⟩
    · simp only [if_pos rfl]
      exact ⟨(ih (rc + 1)).1, by simp [(ih (rc + 1)).2]⟩

/-- Helper: a non-429 bad status on the first attempt ends the run at once:
result `False`, no retry, no wait. -/
theorem downFuel_nonretryable (net : Nat → Outcome) (jitter : Nat → ℚ)
    (ty : UType) (max_retries n : Nat)
    (h429 : n ≠ 429) (hnet : net 0 = Outcome.badStatus n)
    (hty : ty ≠ UType.repo) :
    (download_github_file net jitter ty 0 max_retries).result = false ∧
    (download_github_file net jitter ty 0 max_retries).waits = [] := by
  have hout : attemptOutcome ty net 0 = Outcome.badStatus n := by
    cases ty with
    | repo => exact absurd rfl hty
    | file => exact hnet
    | dir => exact hnet
    | gist => exact hnet
  rw [download_github_file, Nat.sub_zero]
  cases max_retries with
  | zero =>
    simp only [downFuel]
    rw [hout]
    simp
  | succ f =>
    simp only [downFuel]
    rw [hout]
    simp [h429]

/-- C2 (amended): the fetcher retries — with `2 ^ attempt` backoff — only on
a raised exception (network failure and the like) or an explicit 429
rate-limit status, failing after exactly `max_retries` retries when every
attempt errors that way; any other non-2xx status makes it report failure
immediately, with no retry at all. -/
theorem download_retry_policy (net : Nat → Outcome) (jitter : Nat → ℚ)
    (ty : UType) (max_retries : Nat) :
    ((∀ k, net k = Outcome.raise ∨ net k = Outcome.badStatus 429) →
      (download_github_file net jitter ty 0 max_retries).result = false ∧
      (download_github_file net jitter ty 0 max_retries).waits.length
        = max_retries) ∧
    (∀ n, n ≠ 200 → n ≠ 429 → net 0 = Outcome.badStatus n → ty ≠ UType.repo →
      (download_github_file net jitter ty 0 max_retries).result = false ∧
      (download_github_file net jitter ty 0 max_retries).waits = []) := by
  constructor
  · intro herr
    have := downFuel_errorish net jitter ty herr max_retries 0
    rw [download_github_file, Nat.sub_zero]
    exact this
  · intro n _ h429 hnet hty
    exact downFuel_nonretryable net jitter ty max_retries n h429 hnet hty

/-- Witness for `download_retry_policy`: an always-raising network exhausts
all three retries and fails; a 404 on a file reference fails with no retry. -/
theorem download_retry_policy_witness :
    ((download_github_file (fun _ => Outcome.raise) (fun _ => (3 : ℚ)/2)
        UType.dir 0 3).result = false ∧
      (download_github_file (fun _ => Outcome.raise) (fun _ => (3 : ℚ)/2)
        UType.dir 0 3).waits.length = 3) ∧
    ((download_github_file (fun _ => Outcome.badStatus 404) (fun _ => (3 : ℚ)/2)
        UType.file 0 3).result = false ∧
      (download_github_file (fun _ => Outcome.badStatus 404) (fun _ => (3 : ℚ)/2)
        UType.file 0 3).waits = []) :=
  ⟨(download_retry_policy (fun _ => Outcome.raise) (fun _ => (3 : ℚ)/2)
      UType.dir 3).1 (fun _ => Or.inl rfl),
   (download_retry_policy (fun _ => Outcome.badStatus 404) (fun _ => (3 : ℚ)/2)
      UType.file 3).2 404 (by decide) (by decide) rfl (by decide)⟩

/-- Counterexample to C2 as stated: a plain 404 — a non-2xx status — is an
error, yet the fetcher returns `False` at once, with zero retries, instead of
retrying up to `max_retries` times before failing. -/
theorem download_counterexample_404 :
    download_github_file (fun _ => Outcome.badStatus 404) (fun _ => (3 : ℚ)/2)
      UType.file 0 3 = ⟨false, [], 1⟩ := by
  rfl

/-- Helper: a repository-typed reference never issues a primary HTTP request,
whatever the retry budget. -/
theorem downFuel_repo_requests (net : Nat → Outcome) (jitter : Nat → ℚ) :
    ∀ fuel rc, (downFuel net jitter UType.repo rc fuel).requests = 0 := by
  intro fuel
  induction fuel with
  | zero =>
    intro rc
    simp [downFuel, attemptOutcome, attemptRequests]
  | succ f ih =>
    intro rc
    simp [downFuel, attemptOutcome, attemptRequests, ih]

/-- Helper: one row raises `downloaded` by at most one. -/
theorem processRow_downloaded_le (opts : Opts) (net : Nat → Bool) (st : PState)
    (i : Nat) (row : Row) :
    (processRow opts net st i row).downloaded ≤ st.downloaded + 1 := by
  simp only [processRow]
  repeat' split
  all_goals simp

/-- Helper: one row appends at most one fetch event — recording the value of
`downloaded` at the start of the row — optionally followed by one hosted
write, the latter only under an open-source license. -/
theorem processRow_events_shape (opts : Opts) (net : Nat → Bool) (st : PState)
    (i : Nat) (row : Row) :
    (processRow opts net st i row).events = st.events ∨
    (∃ ty rp, (processRow opts net st i row).events
        = st.events ++ [Event.fetch i st.downloaded ty rp]) ∨
    (∃ ty rp hp, resourceLicense row ∈ OPEN_SOURCE_LICENSES ∧
      (processRow opts net st i row).events
        = st.events ++ [Event.fetch i st.downloaded ty rp, Event.hostedWrite i hp]) := by
  simp only [processRow]
  repeat' split
  all_goals simp_all

/-- Helper: the cap invariant for the row loop: if the cap `n` is positive
and configured, the loop keeps `downloaded ≤ n` and starts every fetch
attempt with strictly fewer than `n` downloads recorded. -/
theorem processRows_cap (opts : Opts) (net : Nat → Bool) (n : Nat)
    (hmd : opts.max_downloads = some n) (hn : 0 < n) :
    ∀ rows i st, st.downloaded ≤ n →
      (∀ e ∈ st.events, ∀ j d ty p, e = Event.fetch j d ty p → d < n) →
      (processRows opts net i rows st).downloaded ≤ n ∧
      ∀ e ∈ (processRows opts net i rows st).events,
        ∀ j d ty p, e = Event.fetch j d ty p → d < n := by
  intro rows
  induction rows with
  | nil =>
    intro i st h1 h2
    exact ⟨h1, h2⟩
  | cons r rs ih =>
    intro i st h1 h2
    simp only [processRows]
    by_cases hstop : stopNow opts.max_downloads st.downloaded = true
    · rw [if_pos hstop]
      exact ⟨h1, h2⟩
    · rw [if_neg hstop]
      have hlt : st.downloaded < n := by
        rw [hmd] at hstop
        simp [stopNow] at hstop
        omega
      apply ih
      · exact le_trans (processRow_downloaded_le opts net st i r) hlt
      · intro e he j d ty p hep
        rcases processRow_events_shape opts net st i r with
          hsh | ⟨ty2, rp, hsh⟩ | ⟨ty2, rp, hp, _, hsh⟩
        · rw [hsh] at he
          exact h2 e he j d ty p hep
        · rw [hsh] at he
          rcases List.mem_append.1 he with h | h
          · exact h2 e h j d ty p hep
          · simp at h
            subst h
            cases hep
            exact hlt
        · rw [hsh] at he
          rcases List.mem_append.1 he with h | h
          · exact h2 e h j d ty p hep
          · simp at h
            rcases h with h | h
            · subst h
              cases hep
              exact hlt
            · subst h
              cases hep

/-- C4 (amended): for every positive configured cap `n`, the processor never
records more than `n` downloads, and every fetch attempt is started while
strictly fewer than `n` downloads have succeeded — so no fetch attempt is
started after the `n`-th success.  (For the configured value `0` the cap is
falsy in Python and simply ignored; see the counterexample.) -/
theorem max_downloads_cap (opts : Opts) (net : Nat → Bool) (rows : List Row)
    (n : Nat) (hmd : opts.max_downloads = some n) (hn : 0 < n) :
    (process_resources opts net rows).downloaded ≤ n ∧
    ∀ e ∈ (process_resources opts net rows).events,
      ∀ j d ty p, e = Event.fetch j d ty p → d < n :=
  processRows_cap opts net n hmd hn rows 0 initState (Nat.zero_le n)
    (by intro e he; simp [initState] at he)

/-- Witness for `max_downloads_cap`: with cap 1 and two downloadable rows,
at most one download happens. -/
theorem max_downloads_cap_witness :
    (process_resources optsCap1 (fun _ => true) [fileRowA, fileRowA]).downloaded ≤ 1 :=
  (max_downloads_cap optsCap1 (fun _ => true) [fileRowA, fileRowA] 1 rfl
    (by decide)).1

/-- Counterexample to C4 as stated: with `maxDownloads = 0` the Python cap
check `if max_downloads and downloaded >= max_downloads` is falsy, the cap is
ignored, and a download is performed even though the claim (at `N = 0`)
promises that no fetch attempt starts after 0 successful downloads. -/
theorem max_downloads_cap_counterexample :
    optsCap0.max_downloads = some 0 ∧
    (process_resources optsCap0 (fun _ => true) [fileRowA]).downloaded = 1 := by
  decide

/-- C5: a row whose resolved license is outside the fixed open-source set
never has a hosted path computed (`hosted_path_for` is `None` for every
variant), and processing the row adds no hosted-tree write to the trace. -/
theorem hosted_license_gate (opts : Opts) (net : Nat → Bool) (st : PState)
    (i : Nat) (row : Row)
    (hlic : resourceLicense row ∉ OPEN_SOURCE_LICENSES) :
    (∀ hd mapped safe info,
        hosted_path_for hd mapped safe (resourceLicense row) info = none) ∧
    ∀ p, Event.hostedWrite i p ∈ (processRow opts net st i row).events →
      Event.hostedWrite i p ∈ st.events := by
  constructor
  · intro hd mapped safe info
    cases info <;> simp [hosted_path_for, hlic]
  · intro p hp
    rcases processRow_events_shape opts net st i row with
      hsh | ⟨ty, rp, hsh⟩ | ⟨ty, rp, hpp, hlic2, hsh⟩
    · rwa [hsh] at hp
    · rw [hsh] at hp
      rcases List.mem_append.1 hp with h | h
      · exact h
      · simp at h
    · exact absurd hlic2 hlic

/-- Witness for `hosted_license_gate` at a concrete proprietary-licensed row. -/
theorem hosted_license_gate_witness :
    hosted_path_for "host".data "tooling".data "P".data
      (resourceLicense propRow) (UrlInfo.gist "alice".data "abc123".data) = none :=
  (hosted_license_gate opts0 (fun _ => true) initState 0 propRow (by decide)).1
    "host".data "tooling".data "P".data (UrlInfo.gist "alice".data "abc123".data)

/-- C6 (amended): an active, unfiltered row whose resolved URL fails GitHub
classification is counted as skipped and never as failed; but a row whose two
link columns are both empty is passed over silently — only `total` is
incremented, and in particular `skipped` is *not*. -/
theorem skip_accounting (opts : Opts) (net : Nat → Bool) (st : PState)
    (i : Nat) (row : Row)
    (hact : pyUpper row.active = "TRUE".data)
    (hcf : catFilterBlocks opts.category_filter row.category = false)
    (hlf : licFilterBlocks opts.license_filter row.license = false) :
    (resolvedUrl row ≠ [] → parse_github_url (resolvedUrl row) = none →
      processRow opts net st i row
        = { st with total := st.total + 1, skipped := st.skipped + 1 }) ∧
    (pyStrip row.primaryLink = [] → pyStrip row.secondaryLink = [] →
      processRow opts net st i row = { st with total := st.total + 1 }) := by
  constructor
  · intro hurl hparse
    simp [processRow, hact, hcf, hlf, hurl, hparse]
  · intro h1 h2
    have hurl : resolvedUrl row = [] := by simp [resolvedUrl, h1, h2]
    simp [processRow, hact, hcf, hlf, hurl]

/-- Witness for `skip_accounting` at a concrete non-GitHub row. -/
theorem skip_accounting_witness :
    processRow opts0 (fun _ => true) initState 0 badUrlRow
      = { initState with total := 1, skipped := 1 } :=
  (skip_accounting opts0 (fun _ => true) initState 0 badUrlRow
    (by decide) (by decide) (by decide)).1 (by decide) (by decide)

/-- Counterexample to C6 as stated: a row with both link columns empty is
passed over with `skipped` left at 0 — it is not counted as skipped. -/
theorem skip_accounting_counterexample :
    (process_resources opts0 (fun _ => true) [emptyLinksRow]).total = 1 ∧
    (process_resources opts0 (fun _ => true) [emptyLinksRow]).skipped = 0 := by
  decide

/-- C7 (amended): a row whose `Active` field does not equal `"TRUE"` *after
uppercasing* leaves the processor state — all four counters, the attempt
counter and the trace — completely unchanged. -/
theorem inactive_row_no_counters (opts : Opts) (net : Nat → Bool) (st : PState)
    (i : Nat) (row : Row)
    (hact : pyUpper row.active ≠ "TRUE".data) :
    processRow opts net st i row = st := by
  simp [processRow, hact]

/-- Witness for `inactive_row_no_counters` at a concrete inactive row. -/
theorem inactive_row_no_counters_witness :
    processRow opts0 (fun _ => true) initState 0 falseActiveRow = initState :=
  inactive_row_no_counters opts0 (fun _ => true) initState 0 falseActiveRow
    (by decide)

/-- Counterexample to C7 as stated: the script uppercases the field first, so
the row with `Active = "true"` — which differs from the literal `"TRUE"` — is
processed and increments `total`. -/
theorem inactive_row_counterexample :
    lowActiveRow.active ≠ "TRUE".data ∧
    (process_resources opts0 (fun _ => true) [lowActiveRow]).total = 1 := by
  decide

/-- C8: a bare-repository reference is refused without any network call: the
processor counts such a row as skipped without recording any fetch attempt,
and the fetcher issues zero primary HTTP requests for a repository-typed
reference regardless of the retry budget. -/
theorem repo_refused (opts : Opts) (net : Nat → Bool) (st : PState)
    (i : Nat) (row : Row) (o r : List Char)
    (hact : pyUpper row.active = "TRUE".data)
    (hcf : catFilterBlocks opts.category_filter row.category = false)
    (hlf : licFilterBlocks opts.license_filter row.license = false)
    (hurl : resolvedUrl row ≠ [])
    (hparse : parse_github_url (resolvedUrl row) = some (UrlInfo.repo o r)) :
    processRow opts net st i row
      = { st with total := st.total + 1, skipped := st.skipped + 1 } ∧
    ∀ net2 jitter rc mr,
      (download_github_file net2 jitter UType.repo rc mr).requests = 0 := by
  constructor
  · simp [processRow, hact, hcf, hlf, hurl, hparse]
  · intro net2 jitter rc mr
    rw [download_github_file]
    exact downFuel_repo_requests net2 jitter (mr - rc) rc

/-- Witness for `repo_refused` at a concrete bare-repository row. -/
theorem repo_refused_witness :
    processRow opts0 (fun _ => true) initState 0 repoRowC
      = { initState with total := 1, skipped := 1 } ∧
    (download_github_file (fun _ => Outcome.raise) (fun _ => (3 : ℚ)/2)
      UType.repo 0 3).requests = 0 := by
  have h := repo_refused opts0 (fun _ => true) initState 0 repoRowC
    "acme".data "repo".data (by decide) (by decide) (by decide) (by decide)
    (by decide)
  exact ⟨h.1, h.2 (fun _ => Outcome.raise) (fun _ => (3 : ℚ)/2) 0 3⟩

/-- Helper: the empty string is not a GitHub URL. -/
theorem parse_github_url_nil : parse_github_url ([] : List Char) = none := by
  decide

/-- C9 (amended): for an active, unfiltered row with a successful fetch, the
archive path is `archiveDir/category/safeName/filename` for a file,
`archiveDir/category/safeName` for a directory and
`archiveDir/category/safeName-gist` for a gist; the hosted path (present
exactly under an open-source license) mirrors this for file and directory
but for a gist is `hostedDir/mappedCategory/safeName` — without the `-gist`
suffix; a bare repository writes nothing; and a category absent from the
mapping table maps to the literal directory token `"other"`. -/
theorem archive_hosted_paths (opts : Opts) (net : Nat → Bool) (st : PState)
    (i : Nat) (row : Row)
    (hact : pyUpper row.active = "TRUE".data)
    (hcf : catFilterBlocks opts.category_filter row.category = false)
    (hlf : licFilterBlocks opts.license_filter row.license = false)
    (hnet : net st.attempts = true) :
    (∀ o r b p, parse_github_url (resolvedUrl row) = some (UrlInfo.file o r b p) →
      processRow opts net st i row
        = { st with
              total := st.total + 1,
              downloaded := st.downloaded + 1,
              attempts := st.attempts + 1,
              events := st.events
                ++ Event.fetch i st.downloaded UType.file
                    [opts.output_dir, archiveCategory row, safeName row, basename p]
                  :: (if resourceLicense row ∈ OPEN_SOURCE_LICENSES then
                        [Event.hostedWrite i
                          [opts.hosted_dir, category_mapping_get row.category,
                           safeName row, basename p]]
                      else []) }) ∧
    (∀ o r b p, parse_github_url (resolvedUrl row) = some (UrlInfo.dir o r b p) →
      processRow opts net st i row
        = { st with
              total := st.total + 1,
              downloaded := st.downloaded + 1,
              attempts := st.attempts + 1,
              events := st.events
                ++ Event.fetch i st.downloaded UType.dir
                    [opts.output_dir, archiveCategory row, safeName row]
                  :: (if resourceLicense row ∈ OPEN_SOURCE_LICENSES then
                        [Event.hostedWrite i
                          [opts.hosted_dir, category_mapping_get row.category,
                           safeName row]]
                      else []) }) ∧
    (∀ o g, parse_github_url (resolvedUrl row) = some (UrlInfo.gist o g) →
      processRow opts net st i row
        = { st with
              total := st.total + 1,
              downloaded := st.downloaded + 1,
              attempts := st.attempts + 1,
              events := st.events
                ++ Event.fetch i st.downloaded UType.gist
                    [opts.output_dir, archiveCategory row,
                     safeName row ++ "-gist".data]
                  :: (if resourceLicense row ∈ OPEN_SOURCE_LICENSES then
                        [Event.hostedWrite i
                          [opts.hosted_dir, category_mapping_get row.category,
                           safeName row]]
                      else []) }) ∧
    (∀ o r, parse_github_url (resolvedUrl row) = some (UrlInfo.repo o r) →
      processRow opts net st i row
        = { st with total := st.total + 1, skipped := st.skipped + 1 }) ∧
    (∀ c, c ≠ "Slash-Commands".data → c ≠ "CLAUDE.md Files".data →
      c ≠ "Workflows & Knowledge Guides".data → c ≠ "Tooling".data →
      c ≠ "Official Documentation".data → c ≠ " Implementation".data →
      category_mapping_get c = "other".data) := by
  have hurl : ∀ info : UrlInfo,
      parse_github_url (resolvedUrl row) = some info → ¬ resolvedUrl row = [] := by
    intro info hp he
    rw [he, parse_github_url_nil] at hp
    cases hp
  refine ⟨?_, ?_, ?_, ?_, ?_⟩
  · intro o r b p hparse
    by_cases hl : resourceLicense row ∈ OPEN_SOURCE_LICENSES <;>
      simp [processRow, hact, hcf, hlf, hurl _ hparse, hparse, hnet,
        resource_path_for, hosted_path_for, UrlInfo.utype, hl]
  · intro o r b p hparse
    by_cases hl : resourceLicense row ∈ OPEN_SOURCE_LICENSES <;>
      simp [processRow, hact, hcf, hlf, hurl _ hparse, hparse, hnet,
        resource_path_for, hosted_path_for, UrlInfo.utype, hl]
  · intro o g hparse
    by_cases hl : resourceLicense row ∈ OPEN_SOURCE_LICENSES <;>
      simp [processRow, hact, hcf, hlf, hurl _ hparse, hparse, hnet,
        resource_path_for, hosted_path_for, UrlInfo.utype, hl]
  · intro o r hparse
    simp [processRow, hact, hcf, hlf, hurl _ hparse, hparse]
  · intro c h1 h2 h3 h4 h5 h6
    simp [category_mapping_get, h1, h2, h3, h4, h5, h6]

/-- Witness for `archive_hosted_paths`: the concrete gist row, MIT-licensed,
of category `Tooling`. -/
theorem archive_hosted_paths_witness :
    processRow opts0 (fun _ => true) initState 0 gistRowC
      = { initState with
            total := 1,
            downloaded := 1,
            attempts := 1,
            events := [Event.fetch 0 0 UType.gist
                         ["arch".data, "tooling".data, "My-Gist-gist".data],
                       Event.hostedWrite 0
                         ["host".data, "tooling".data, "My-Gist".data]] } := by
  have h := (archive_hosted_paths opts0 (fun _ => true) initState 0 gistRowC
    (by decide) (by decide) (by decide) rfl).2.2.1 "alice".data "abc123".data
    (by decide)
  rw [h]
  decide

/-- Counterexample to C9 as stated: for a gist the archive directory ends in
`safeName-gist` but the hosted directory ends in plain `safeName`, so the
hosted path does not mirror the archive path's shape. -/
theorem archive_hosted_paths_counterexample :
    (process_resources opts0 (fun _ => true) [gistRowC]).events
      = [Event.fetch 0 0 UType.gist
           ["arch".data, "tooling".data, "My-Gist-gist".data],
         Event.hostedWrite 0 ["host".data, "tooling".data, "My-Gist".data]] ∧
    ("My-Gist".data : List Char) ≠ "My-Gist-gist".data := by
  decide

/-- Helper: membership survives `dropWhile`. -/
theorem mem_of_mem_dropWhile {p : Char → Bool} {c : Char} :
    ∀ {l : List Char}, c ∈ l.dropWhile p → c ∈ l := by
  intro l
  induction l with
  | nil => exact fun h => h
  | cons a as ih =>
    intro h
    rw [List.dropWhile_cons] at h
    by_cases hp : p a = true
    · rw [if_pos hp] at h
      exact List.mem_cons_of_mem a (ih h)
    · rw [if_neg hp] at h
      exact h

/-- Helper: whitespace collapsing introduces only hyphens and keeps the
non-whitespace input characters, so its output has no whitespace and — when
the input has no forbidden filesystem character — no forbidden character. -/
theorem collapseWsAux_chars :
    ∀ (l : List Char) (prev : Bool), (∀ c ∈ l, badFsChar c = false) →
      ∀ c ∈ collapseWsAux prev l, badFsChar c = false ∧ isPySpace c = false := by
  intro l
  induction l with
  | nil =>
    intro prev _ c hc
    cases hc
  | cons a as ih =>
    intro prev h c hc
    have has : ∀ d ∈ as, badFsChar d = false :=
      fun d hd => h d (List.mem_cons_of_mem a hd)
    by_cases hsp : isPySpace a = true
    · simp only [collapseWsAux, if_pos hsp] at hc
      cases prev with
      | true =>
        simp only [if_pos rfl] at hc
        exact ih true has c hc
      | false =>
        simp only [Bool.false_eq_true, if_false] at hc
        rcases List.mem_cons.mp hc with rfl | hc
        · exact ⟨by decide, by decide⟩
        · exact ih true has c hc
    · simp only [collapseWsAux, if_neg hsp] at hc
      rcases List.mem_cons.mp hc with rfl | hc
      · exact ⟨h c (List.mem_cons_self c as), by simpa using hsp⟩
      · exact ih false has c hc

/-- Helper: membership survives the two-sided strip. -/
theorem mem_stripDashDot {c : Char} {l : List Char} (h : c ∈ stripDashDot l) :
    c ∈ l := by
  unfold stripDashDot at h
  rw [List.mem_reverse] at h
  have h2 := mem_of_mem_dropWhile h
  rw [List.mem_reverse] at h2
  exact mem_of_mem_dropWhile h2

/-- Helper: the strip result is a prefix of the left-stripped list, so its
head — if any — is not a stripped character. -/
theorem stripDashDot_head {c : Char} {cs l : List Char}
    (h : stripDashDot l = c :: cs) : isStripChar c = false := by
  have hpre : stripDashDot l <+: l.dropWhile isStripChar := by
    unfold stripDashDot
    refine List.reverse_suffix.mp ?_
    rw [List.reverse_reverse]
    exact List.dropWhile_suffix _
  rw [h] at hpre
  obtain ⟨t, ht⟩ := hpre
  have hhead : (l.dropWhile isStripChar).head? = some c := by
    rw [← ht]
    rfl
  have hnot := List.head?_dropWhile_not isStripChar l
  rw [hhead] at hnot
  exact hnot

/-- C10 (amended): `sanitize_filename` always returns at most 255 characters,
none of which is a forbidden filesystem character or whitespace, and the
result never *starts* with a hyphen or a dot.  (It can, however, *end* with a
hyphen or a dot, because the truncation to 255 characters happens after the
strip — see the counterexample.) -/
theorem sanitize_filename_props (name : List Char) :
    (sanitize_filename name).length ≤ 255 ∧
    (sanitize_filename name).all (fun c => !badFsChar c && !isPySpace c) = true ∧
    ((sanitize_filename name).take 1).all (fun c => !isStripChar c) = true := by
  refine ⟨?_, ?_, ?_⟩
  · simp only [sanitize_filename, List.length_take]
    omega
  · rw [List.all_eq_true]
    intro c hc
    simp only [sanitize_filename] at hc
    have hc2 := List.take_subset _ _ hc
    have hc3 := mem_stripDashDot hc2
    have hfl : ∀ d ∈ name.filter (fun c => !badFsChar c), badFsChar d = false := by
      intro d hd
      have := (List.mem_filter.mp hd).2
      simpa using this
    obtain ⟨h1, h2⟩ := collapseWsAux_chars _ false hfl c hc3
    simp [h1, h2]
  · simp only [sanitize_filename, List.take_take]
    have hmin : min 1 255 = 1 := by norm_num
    rw [hmin]
    cases hres : stripDashDot (collapseWsAux false
        (name.filter fun c => !badFsChar c)) with
    | nil => simp
    | cons c cs =>
      have := stripDashDot_head hres
      simp [List.take, this]

/-- Counterexample to C10 as stated: on `longDotName` the sanitised result
ends with `'.'`, because `name.strip("-.")` runs before the `[:255]`
truncation, which re-exposes a dot at the cut. -/
theorem sanitize_filename_counterexample :
    (sanitize_filename longDotName).getLast? = some '.' ∧
    isStripChar '.' = true := by
  decide

/-- Helper: `dropPre` of an exact prefix. -/
theorem dropPre_self (pre : List Char) : ∀ l, dropPre pre (pre ++ l) = some l := by
  induction pre with
  | nil => intro l; simp [dropPre]
  | cons c cs ih => intro l; simp [dropPre, ih]

/-- Helper: inversion of a successful `dropPre`. -/
theorem dropPre_eq_some : ∀ (pre l r : List Char), dropPre pre l = some r →
    l = pre ++ r := by
  intro pre
  induction pre with
  | nil =>
    intro l r h
    simp only [dropPre, Option.some.injEq] at h
    rw [← h]
    rfl
  | cons c cs ih =>
    intro l r h
    cases l with
    | nil => cases h
    | cons d ds =>
      rw [dropPre] at h
      by_cases hcd : c = d
      · rw [if_pos hcd] at h
        rw [List.cons_append, ← ih ds r h, hcd]
      · rw [if_neg hcd] at h
        cases h

/-- Helper: `takeWhile` keeps a list all of whose members satisfy `p`. -/
theorem takeWhile_of_all {p : Char → Bool} :
    ∀ {l : List Char}, (∀ c ∈ l, p c = true) → l.takeWhile p = l := by
  intro l
  induction l with
  | nil => intro _; rfl
  | cons a as ih =>
    intro h
    rw [List.takeWhile_cons_of_pos (h a (List.mem_cons_self a as))]
    rw [ih (fun c hc => h c (List.mem_cons_of_mem a hc))]

/-- Helper: `dropWhile` empties a list all of whose members satisfy `p`. -/
theorem dropWhile_of_all {p : Char → Bool} :
    ∀ {l : List Char}, (∀ c ∈ l, p c = true) → l.dropWhile p = [] := by
  intro l
  induction l with
  | nil => intro _; rfl
  | cons a as ih =>
    intro h
    rw [List.dropWhile_cons_of_pos (h a (List.mem_cons_self a as))]
    exact ih (fun c hc => h c (List.mem_cons_of_mem a hc))

/-- Helper: the boolean non-slash test, satisfied by every member of a
slash-free list. -/
theorem noSlash_all {a : List Char} (hs : '/' ∉ a) :
    ∀ c ∈ a, (!(c = '/') : Bool) = true := by
  intro c hc
  simp only [Bool.not_eq_true']
  rw [decide_eq_false_iff_not]
  intro h
  subst h
  exact hs hc

/-- Helper: `segSlash` on a nonempty slash-free run followed by a slash. -/
theorem segSlash_append {a : List Char} (ha : a ≠ []) (hs : '/' ∉ a) :
    ∀ rest, segSlash (a ++ '/' :: rest) = some (a, rest) := by
  intro rest
  rw [segSlash]
  rw [List.dropWhile_append_of_pos (noSlash_all hs),
    List.takeWhile_append_of_pos (noSlash_all hs)]
  rw [List.dropWhile_cons_of_neg (by simp), List.takeWhile_cons_of_neg (by simp)]
  rw [List.append_nil]
  cases a with
  | nil => exact absurd rfl ha
  | cons c cs => rfl

/-- Helper: `segSlash` fails on a slash-free list. -/
theorem segSlash_no_slash {a : List Char} (hs : '/' ∉ a) : segSlash a = none := by
  rw [segSlash, dropWhile_of_all (noSlash_all hs)]

/-- Helper: `segSlash` on a nonempty slash-free run with a trailing slash at
the very end. -/
theorem segSlash_trailing {a : List Char} (ha : a ≠ []) (hs : '/' ∉ a) :
    segSlash (a ++ ['/']) = some (a, []) := segSlash_append ha hs []

/-- Helper: inversion of a successful `segSlash`. -/
theorem segSlash_eq_some {l a r : List Char} (h : segSlash l = some (a, r)) :
    l = a ++ '/' :: r ∧ a ≠ [] ∧ '/' ∉ a := by
  rw [segSlash] at h
  rcases hd : l.dropWhile (fun c => !(c = '/')) with _ | ⟨d, ds⟩
  · rw [hd] at h
    cases h
  · rw [hd] at h
    by_cases hds : d = '/'
    · subst hds
      rcases ht : l.takeWhile (fun c => !(c = '/')) with _ | ⟨t, ts⟩
      · rw [ht] at h
        cases h
      · rw [ht] at h
        cases h
        refine ⟨?_, by simp, ?_⟩
        · rw [← List.takeWhile_append_dropWhile
            (p := fun c => !(c = '/')) (l := l), ht, hd]
        · intro hmem
          have := List.all_takeWhile (l := l) (p := fun c => !(c = '/'))
          rw [ht, List.all_eq_true] at this
          have h2 := this '/' hmem
          simp at h2
    · exfalso
      have hhd := List.head?_dropWhile_not (fun c => !(c = '/')) l
      rw [hd] at hhd
      simp only [List.head?_cons] at hhd
      simp at hhd
      exact hds hhd

/-- Helper: concrete prefix computations used when evaluating the matchers on
well-shaped URLs, stated over the explicit character lists that `simp`
produces for the fixed pattern texts.  Each is a plain computation. -/
theorem dropPre_gh_gist (x : List Char) :
    dropPre "https://github.com/".data ("https://gist.github.com/".data ++ x)
      = none := rfl

theorem dropPre_gh_gistL (x : List Char) :
    dropPre ['h', 't', 't', 'p', 's', ':', '/', '/', 'g', 'i', 't', 'h', 'u',
        'b', '.', 'c', 'o', 'm', '/']
      (['h', 't', 't', 'p', 's', ':', '/', '/', 'g', 'i', 's', 't', '.',
        'g', 'i', 't', 'h', 'u', 'b', '.', 'c', 'o', 'm', '/'] ++ x)
      = none := rfl

theorem dropPre_blob_self (w : List Char) :
    dropPre ['b', 'l', 'o', 'b', '/'] (['b', 'l', 'o', 'b'] ++ '/' :: w)
      = some w := dropPre_self "blob/".data w

theorem dropPre_raw_self (w : List Char) :
    dropPre ['r', 'a', 'w', '/'] (['r', 'a', 'w'] ++ '/' :: w)
      = some w := dropPre_self "raw/".data w

theorem dropPre_tree_self (w : List Char) :
    dropPre ['t', 'r', 'e', 'e', '/'] (['t', 'r', 'e', 'e'] ++ '/' :: w)
      = some w := dropPre_self "tree/".data w

theorem dropPre_blob_raw (w : List Char) :
    dropPre ['b', 'l', 'o', 'b', '/'] (['r', 'a', 'w'] ++ '/' :: w) = none := rfl

theorem dropPre_blob_tree (w : List Char) :
    dropPre ['b', 'l', 'o', 'b', '/'] (['t', 'r', 'e', 'e'] ++ '/' :: w)
      = none := rfl

theorem dropPre_raw_tree (w : List Char) :
    dropPre ['r', 'a', 'w', '/'] (['t', 'r', 'e', 'e'] ++ '/' :: w) = none := rfl

theorem dropPre_tree_blob (w : List Char) :
    dropPre ['t', 'r', 'e', 'e', '/'] (['b', 'l', 'o', 'b'] ++ '/' :: w)
      = none := rfl

theorem dropPre_tree_raw (w : List Char) :
    dropPre ['t', 'r', 'e', 'e', '/'] (['r', 'a', 'w'] ++ '/' :: w) = none := rfl

theorem dropPre_blob_nil : dropPre ['b', 'l', 'o', 'b', '/'] [] = none := rfl

theorem dropPre_raw_nil : dropPre ['r', 'a', 'w', '/'] [] = none := rfl

theorem dropPre_tree_nil : dropPre ['t', 'r', 'e', 'e', '/'] [] = none := rfl

/-- Helper: every member of a list avoiding `x` passes the `≠ x` test. -/
theorem notChar_all {x : Char} {a : List Char} (hs : x ∉ a) :
    ∀ c ∈ a, (!(c = x) : Bool) = true := by
  intro c hc
  simp only [Bool.not_eq_true']
  rw [decide_eq_false_iff_not]
  intro h
  subst h
  exact hs hc

/-- Helper: `matchFile` on an exact blob-URL decomposition. -/
theorem matchFile_blob {o r b p : List Char} (ho : o ≠ []) (hso : '/' ∉ o)
    (hr : r ≠ []) (hsr : '/' ∉ r) (hb : b ≠ []) (hsb : '/' ∉ b)
    (hp : p ≠ []) (hnp : '\n' ∉ p) :
    matchFile ("https://github.com/".data
        ++ (o ++ '/' :: (r ++ '/' :: ("blob".data ++ '/' :: (b ++ '/' :: p)))))
      = some (.file o r b p) := by
  have hptake : List.takeWhile (fun c => !(c = '\n')) p = p :=
    takeWhile_of_all (notChar_all hnp)
  simp only [matchFile, dropPre_self, segSlash_append ho hso,
    segSlash_append hr hsr, dropPre_blob_self, Option.orElse,
    segSlash_append hb hsb, hptake]

/-- Helper: `matchFile` on an exact raw-URL decomposition. -/
theorem matchFile_raw {o r b p : List Char} (ho : o ≠ []) (hso : '/' ∉ o)
    (hr : r ≠ []) (hsr : '/' ∉ r) (hb : b ≠ []) (hsb : '/' ∉ b)
    (hp : p ≠ []) (hnp : '\n' ∉ p) :
    matchFile ("https://github.com/".data
        ++ (o ++ '/' :: (r ++ '/' :: ("raw".data ++ '/' :: (b ++ '/' :: p)))))
      = some (.file o r b p) := by
  have hptake : List.takeWhile (fun c => !(c = '\n')) p = p :=
    takeWhile_of_all (notChar_all hnp)
  simp only [matchFile, dropPre_self, segSlash_append ho hso,
    segSlash_append hr hsr, dropPre_blob_raw, dropPre_raw_self, Option.orElse,
    segSlash_append hb hsb, hptake]

/-- Helper: `matchFile` rejects a tree URL (third segment is `tree`). -/
theorem matchFile_tree {o r : List Char} (ho : o ≠ []) (hso : '/' ∉ o)
    (hr : r ≠ []) (hsr : '/' ∉ r) (w : List Char) :
    matchFile ("https://github.com/".data
        ++ (o ++ '/' :: (r ++ '/' :: ("tree".data ++ '/' :: w)))) = none := by
  simp only [matchFile, dropPre_self, segSlash_append ho hso,
    segSlash_append hr hsr, dropPre_blob_tree, dropPre_raw_tree, Option.orElse]

/-- Helper: `matchDir` accepts an exact tree-URL decomposition. -/
theorem matchDir_tree {o r b p : List Char} (ho : o ≠ []) (hso : '/' ∉ o)
    (hr : r ≠ []) (hsr : '/' ∉ r) (hb : b ≠ []) (hsb : '/' ∉ b)
    (hp : p ≠ []) (hnp : '\n' ∉ p) :
    matchDir ("https://github.com/".data
        ++ (o ++ '/' :: (r ++ '/' :: ("tree".data ++ '/' :: (b ++ '/' :: p)))))
      = some (.dir o r b p) := by
  have hptake : List.takeWhile (fun c => !(c = '\n')) p = p :=
    takeWhile_of_all (notChar_all hnp)
  simp only [matchDir, dropPre_self, segSlash_append ho hso,
    segSlash_append hr hsr, dropPre_tree_self, segSlash_append hb hsb, hptake]

/-- Helper: `matchDir` rejects a blob URL. -/
theorem matchDir_blob {o r : List Char} (ho : o ≠ []) (hso : '/' ∉ o)
    (hr : r ≠ []) (hsr : '/' ∉ r) (w : List Char) :
    matchDir ("https://github.com/".data
        ++ (o ++ '/' :: (r ++ '/' :: ("blob".data ++ '/' :: w)))) = none := by
  simp only [matchDir, dropPre_self, segSlash_append ho hso,
    segSlash_append hr hsr, dropPre_tree_blob]

/-- Helper: `matchDir` rejects a raw URL. -/
theorem matchDir_raw {o r : List Char} (ho : o ≠ []) (hso : '/' ∉ o)
    (hr : r ≠ []) (hsr : '/' ∉ r) (w : List Char) :
    matchDir ("https://github.com/".data
        ++ (o ++ '/' :: (r ++ '/' :: ("raw".data ++ '/' :: w)))) = none := by
  simp only [matchDir, dropPre_self, segSlash_append ho hso,
    segSlash_append hr hsr, dropPre_tree_raw]

/-- Helper: `matchFile` rejects a two-segment (bare repository) URL. -/
theorem matchFile_twoseg {o r : List Char} (ho : o ≠ []) (hso : '/' ∉ o)
    (hsr : '/' ∉ r) :
    matchFile ("https://github.com/".data ++ (o ++ '/' :: r)) = none := by
  simp only [matchFile, dropPre_self, segSlash_append ho hso,
    segSlash_no_slash hsr]

/-- Helper: `matchFile` rejects a two-segment URL with a trailing slash. -/
theorem matchFile_twoseg_slash {o r : List Char} (ho : o ≠ []) (hso : '/' ∉ o)
    (hr : r ≠ []) (hsr : '/' ∉ r) :
    matchFile ("https://github.com/".data ++ (o ++ '/' :: (r ++ ['/'])))
      = none := by
  simp only [matchFile, dropPre_self, segSlash_append ho hso,
    segSlash_trailing hr hsr, dropPre_blob_nil, dropPre_raw_nil, Option.orElse]

/-- Helper: `matchDir` rejects a two-segment URL. -/
theorem matchDir_twoseg {o r : List Char} (ho : o ≠ []) (hso : '/' ∉ o)
    (hsr : '/' ∉ r) :
    matchDir ("https://github.com/".data ++ (o ++ '/' :: r)) = none := by
  simp only [matchDir, dropPre_self, segSlash_append ho hso,
    segSlash_no_slash hsr]

/-- Helper: `matchDir` rejects a two-segment URL with a trailing slash. -/
theorem matchDir_twoseg_slash {o r : List Char} (ho : o ≠ []) (hso : '/' ∉ o)
    (hr : r ≠ []) (hsr : '/' ∉ r) :
    matchDir ("https://github.com/".data ++ (o ++ '/' :: (r ++ ['/'])))
      = none := by
  simp only [matchDir, dropPre_self, segSlash_append ho hso,
    segSlash_trailing hr hsr, dropPre_tree_nil]

/-- Helper: `matchRepo` accepts an exact bare-repository decomposition. -/
theorem matchRepo_plain {o r : List Char} (ho : o ≠ []) (hso : '/' ∉ o)
    (hr : r ≠ []) (hsr : '/' ∉ r) :
    matchRepo ("https://github.com/".data ++ (o ++ '/' :: r))
      = some (.repo o r) := by
  have htake : List.takeWhile (fun c => !(c = '/')) r = r :=
    takeWhile_of_all (noSlash_all hsr)
  have hdrop : List.dropWhile (fun c => !(c = '/')) r = [] :=
    dropWhile_of_all (noSlash_all hsr)
  simp only [matchRepo, dropPre_self, segSlash_append ho hso, htake, hdrop]
  cases r with
  | nil => exact absurd rfl hr
  | cons a as => simp

/-- Helper: `matchRepo` accepts a bare-repository URL with a trailing slash. -/
theorem matchRepo_trailing {o r : List Char} (ho : o ≠ []) (hso : '/' ∉ o)
    (hr : r ≠ []) (hsr : '/' ∉ r) :
    matchRepo ("https://github.com/".data ++ (o ++ '/' :: (r ++ ['/'])))
      = some (.repo o r) := by
  have htake : List.takeWhile (fun c => !(c = '/')) (r ++ ['/']) = r := by
    rw [List.takeWhile_append_of_pos (noSlash_all hsr)]
    simp
  have hdrop : List.dropWhile (fun c => !(c = '/')) (r ++ ['/']) = ['/'] := by
    rw [List.dropWhile_append_of_pos (noSlash_all hsr)]
    simp
  simp only [matchRepo, dropPre_self, segSlash_append ho hso, htake, hdrop]
  cases r with
  | nil => exact absurd rfl hr
  | cons a as => simp

/-- Helper: the three `github.com` matchers all reject a `gist.github.com`
URL (the fixed prefixes differ at the 11th character). -/
theorem matchFile_gistpre (x : List Char) :
    matchFile (['h', 't', 't', 'p', 's', ':', '/', '/', 'g', 'i', 's', 't', '.',
        'g', 'i', 't', 'h', 'u', 'b', '.', 'c', 'o', 'm', '/'] ++ x) = none := by
  simp only [matchFile, dropPre_gh_gist, dropPre_gh_gistL]

theorem matchDir_gistpre (x : List Char) :
    matchDir (['h', 't', 't', 'p', 's', ':', '/', '/', 'g', 'i', 's', 't', '.',
        'g', 'i', 't', 'h', 'u', 'b', '.', 'c', 'o', 'm', '/'] ++ x) = none := by
  simp only [matchDir, dropPre_gh_gist, dropPre_gh_gistL]

theorem matchRepo_gistpre (x : List Char) :
    matchRepo (['h', 't', 't', 'p', 's', ':', '/', '/', 'g', 'i', 's', 't', '.',
        'g', 'i', 't', 'h', 'u', 'b', '.', 'c', 'o', 'm', '/'] ++ x) = none := by
  simp only [matchRepo, dropPre_gh_gist, dropPre_gh_gistL]

/-- Helper: `matchGist` accepts an exact gist-URL decomposition. -/
theorem matchGist_pos {o g : List Char} (ho : o ≠ []) (hso : '/' ∉ o)
    (hg : g ≠ []) (hsg : '/' ∉ g) (hhg : '#' ∉ g) :
    matchGist ("https://gist.github.com/".data ++ (o ++ '/' :: g))
      = some (.gist o g) := by
  have hgtake : List.takeWhile (fun c => !(c = '/' || c = '#')) g = g := by
    refine takeWhile_of_all ?_
    intro c hc
    have h1 : c ≠ '/' := fun h => hsg (h ▸ hc)
    have h2 : c ≠ '#' := fun h => hhg (h ▸ hc)
    simp [h1, h2]
  simp only [matchGist, dropPre_self, segSlash_append ho hso, hgtake]

/-- Helper: the character `x` never survives into `takeWhile (· ≠ x)`. -/
theorem not_mem_takeWhile_self {x : Char} (l : List Char) :
    x ∉ l.takeWhile (fun c => !(c = x)) := by
  intro hx
  have hall := List.all_takeWhile (l := l) (p := fun c => !(c = x))
  rw [List.all_eq_true] at hall
  have h2 := hall x hx
  simp at h2

/-- Helper: inversion of `Option.orElse`. -/
theorem orElse_eq_some {α : Type} {a : Option α} {f : Unit → Option α} {x : α}
    (h : a.orElse f = some x) : a = some x ∨ (a = none ∧ f () = some x) := by
  cases a with
  | none => exact Or.inr ⟨rfl, h⟩
  | some v => exact Or.inl h

/-- Helper: neither `/` nor `#` survives into the gist-id capture. -/
theorem gist_run_no_slash (l : List Char) :
    '/' ∉ l.takeWhile (fun c => !(c = '/' || c = '#')) := by
  intro hx
  have hall := List.all_takeWhile (l := l) (p := fun c => !(c = '/' || c = '#'))
  rw [List.all_eq_true] at hall
  have h2 := hall _ hx
  simp at h2

/-- Helper: the `#` half of the previous fact. -/
theorem gist_run_no_hash (l : List Char) :
    '#' ∉ l.takeWhile (fun c => !(c = '/' || c = '#')) := by
  intro hx
  have hall := List.all_takeWhile (l := l) (p := fun c => !(c = '/' || c = '#'))
  rw [List.all_eq_true] at hall
  have h2 := hall _ hx
  simp at h2

/-- Helper: a successful `matchFile` exhibits a file-pattern decomposition. -/
theorem matchFile_some {l : List Char} {i : UrlInfo} (h : matchFile l = some i) :
    MatchesFilePat l := by
  rw [matchFile] at h
  split at h
  · cases h
  rename_i r0 h0
  split at h
  · cases h
  rename_i o r1 h1
  split at h
  · cases h
  rename_i r r2 h2
  split at h
  · cases h
  rename_i r3 hor
  split at h
  · cases h
  rename_i b r4 h3
  split at h
  · cases h
  rename_i q hne
  obtain ⟨he0, ho, hso⟩ := segSlash_eq_some h1
  obtain ⟨he1, hr, hsr⟩ := segSlash_eq_some h2
  obtain ⟨he3, hbne, hsb⟩ := segSlash_eq_some h3
  have hsep : ∃ sep, (sep = "blob".data ∨ sep = "raw".data) ∧
      r2 = sep ++ '/' :: r3 := by
    rcases orElse_eq_some hor with hb | ⟨_, hw⟩
    · exact ⟨"blob".data, Or.inl rfl,
        show r2 = "blob".data ++ '/' :: r3 from
          dropPre_eq_some "blob/".data r2 r3 hb⟩
    · exact ⟨"raw".data, Or.inr rfl,
        show r2 = "raw".data ++ '/' :: r3 from
          dropPre_eq_some "raw/".data r2 r3 hw⟩
  obtain ⟨sep, hsepor, he2⟩ := hsep
  refine ⟨o, r, sep, b, List.takeWhile (fun c => !(c = '\n')) r4,
    r4.dropWhile (fun c => !(c = '\n')),
    hsepor, ho, hso, hr, hsr, hbne, hsb, fun hp => hne hp,
    not_mem_takeWhile_self r4, ?_⟩
  rw [dropPre_eq_some _ _ _ h0, he0, he1, he2, he3,
    List.takeWhile_append_dropWhile]

/-- Helper: a successful `matchDir` exhibits a tree-pattern decomposition. -/
theorem matchDir_some {l : List Char} {i : UrlInfo} (h : matchDir l = some i) :
    MatchesDirPat l := by
  rw [matchDir] at h
  split at h
  · cases h
  rename_i r0 h0
  split at h
  · cases h
  rename_i o r1 h1
  split at h
  · cases h
  rename_i r r2 h2
  split at h
  · cases h
  rename_i r3 htr
  split at h
  · cases h
  rename_i b r4 h3
  split at h
  · cases h
  rename_i q hne
  obtain ⟨he0, ho, hso⟩ := segSlash_eq_some h1
  obtain ⟨he1, hr, hsr⟩ := segSlash_eq_some h2
  obtain ⟨he3, hbne, hsb⟩ := segSlash_eq_some h3
  have he2 : r2 = "tree".data ++ '/' :: r3 :=
    dropPre_eq_some "tree/".data r2 r3 htr
  refine ⟨o, r, b, List.takeWhile (fun c => !(c = '\n')) r4,
    r4.dropWhile (fun c => !(c = '\n')),
    ho, hso, hr, hsr, hbne, hsb, fun hp => hne hp,
    not_mem_takeWhile_self r4, ?_⟩
  rw [dropPre_eq_some _ _ _ h0, he0, he1, he2, he3,
    List.takeWhile_append_dropWhile]

/-- Helper: a successful `matchRepo` exhibits a repository-pattern
decomposition. -/
theorem matchRepo_some {l : List Char} {i : UrlInfo} (h : matchRepo l = some i) :
    MatchesRepoPat l := by
  rw [matchRepo] at h
  split at h
  · cases h
  rename_i r0 h0
  split at h
  · cases h
  rename_i o r1 h1
  split at h
  · cases h
  rename_i q hne
  split at h
  · rename_i hcond
    obtain ⟨he0, ho, hso⟩ := segSlash_eq_some h1
    refine ⟨o, List.takeWhile (fun c => !(c = '/')) r1,
      r1.dropWhile (fun c => !(c = '/')),
      ho, hso, fun hp => hne hp, not_mem_takeWhile_self r1, hcond, ?_⟩
    rw [dropPre_eq_some _ _ _ h0, he0, List.takeWhile_append_dropWhile]
  · cases h

/-- Helper: a successful `matchGist` exhibits a gist-pattern decomposition. -/
theorem matchGist_some {l : List Char} {i : UrlInfo} (h : matchGist l = some i) :
    MatchesGistPat l := by
  rw [matchGist] at h
  split at h
  · cases h
  rename_i r0 h0
  split at h
  · cases h
  rename_i o r1 h1
  split at h
  · cases h
  rename_i q hne
  obtain ⟨he0, ho, hso⟩ := segSlash_eq_some h1
  refine ⟨o, List.takeWhile (fun c => !(c = '/' || c = '#')) r1,
    r1.dropWhile (fun c => !(c = '/' || c = '#')),
    ho, hso, fun hp => hne hp, gist_run_no_slash r1, gist_run_no_hash r1, ?_⟩
  rw [dropPre_eq_some _ _ _ h0, he0, List.takeWhile_append_dropWhile]

/-- C1: `parse_github_url` classifies every URL of one of the four supported
shapes into the corresponding variant with owner, repo, branch and path (or
owner and gist id) extracted exactly, and returns `none` for every string
matched by none of the four patterns.  The four patterns are mutually
exclusive, so trying them in the order file, directory, repository, gist and
returning the first match yields exactly these results. -/
theorem parse_github_url_correct :
    (∀ o r b p : List Char, o ≠ [] → '/' ∉ o → r ≠ [] → '/' ∉ r →
      b ≠ [] → '/' ∉ b → p ≠ [] → '\n' ∉ p →
      parse_github_url ("https://github.com/".data
          ++ (o ++ '/' :: (r ++ '/' :: ("blob".data ++ '/' :: (b ++ '/' :: p)))))
        = some (UrlInfo.file o r b p) ∧
      parse_github_url ("https://github.com/".data
          ++ (o ++ '/' :: (r ++ '/' :: ("raw".data ++ '/' :: (b ++ '/' :: p)))))
        = some (UrlInfo.file o r b p) ∧
      parse_github_url ("https://github.com/".data
          ++ (o ++ '/' :: (r ++ '/' :: ("tree".data ++ '/' :: (b ++ '/' :: p)))))
        = some (UrlInfo.dir o r b p)) ∧
    (∀ o r : List Char, o ≠ [] → '/' ∉ o → r ≠ [] → '/' ∉ r →
      parse_github_url ("https://github.com/".data ++ (o ++ '/' :: r))
        = some (UrlInfo.repo o r) ∧
      parse_github_url ("https://github.com/".data ++ (o ++ '/' :: (r ++ ['/'])))
        = some (UrlInfo.repo o r)) ∧
    (∀ o g : List Char, o ≠ [] → '/' ∉ o → g ≠ [] → '/' ∉ g → '#' ∉ g →
      parse_github_url ("https://gist.github.com/".data ++ (o ++ '/' :: g))
        = some (UrlInfo.gist o g)) ∧
    (∀ l : List Char, ¬ MatchesFilePat l → ¬ MatchesDirPat l →
      ¬ MatchesRepoPat l → ¬ MatchesGistPat l → parse_github_url l = none) := by
  refine ⟨?_, ?_, ?_, ?_⟩
  · intro o r b p ho hso hr hsr hb hsb hp hnp
    refine ⟨?_, ?_, ?_⟩
    · simp only [parse_github_url, matchFile_blob ho hso hr hsr hb hsb hp hnp]
    · simp only [parse_github_url, matchFile_raw ho hso hr hsr hb hsb hp hnp]
    · simp only [parse_github_url, matchFile_tree ho hso hr hsr,
        matchDir_tree ho hso hr hsr hb hsb hp hnp]
  · intro o r ho hso hr hsr
    refine ⟨?_, ?_⟩
    · simp only [parse_github_url, matchFile_twoseg ho hso hsr,
        matchDir_twoseg ho hso hsr, matchRepo_plain ho hso hr hsr]
    · simp only [parse_github_url, matchFile_twoseg_slash ho hso hr hsr,
        matchDir_twoseg_slash ho hso hr hsr, matchRepo_trailing ho hso hr hsr]
  · intro o g ho hso hg hsg hhg
    simp only [parse_github_url, matchFile_gistpre, matchDir_gistpre,
      matchRepo_gistpre, matchGist_pos ho hso hg hsg hhg]
  · intro l hf hd hrp hg
    rcases h1 : matchFile l with _ | i1
    case some => exact absurd (matchFile_some h1) hf
    rcases h2 : matchDir l with _ | i2
    case some => exact absurd (matchDir_some h2) hd
    rcases h3 : matchRepo l with _ | i3
    case some => exact absurd (matchRepo_some h3) hrp
    rcases h4 : matchGist l with _ | i4
    case some => exact absurd (matchGist_some h4) hg
    simp only [parse_github_url, h1, h2, h3, h4]

/-- Witness for `parse_github_url_correct` at a concrete blob URL. -/
theorem parse_github_url_correct_witness :
    parse_github_url ("https://github.com/".data ++ ("acme".data ++ '/' ::
        ("repo".data ++ '/' :: ("blob".data ++ '/' ::
          ("main".data ++ '/' :: "cmd/tool.py".data)))))
      = some (UrlInfo.file "acme".data "repo".data "main".data
          "cmd/tool.py".data) :=
  (parse_github_url_correct.1 "acme".data "repo".data "main".data
    "cmd/tool.py".data (by decide) (by decide) (by decide) (by decide)
    (by decide) (by decide) (by decide) (by decide)).1
